import Mathlib

/-!
Shallow embedding of `src/transformations.rs` (program transformations of the
nickel configuration language): the share-normal-form rewriter, the
resolution rewriter for imports, the worklist-driven transform driver, and the
closurization capability.

Modelling conventions:
* Rust `&mut` state (the resolver, the worklist stack, the global fresh-variable
  counter) is threaded explicitly: each function takes the state and returns the
  updated state, on the error path as well, mirroring the fact that mutations
  performed before an error persist in Rust.
* The global `FreshVarCounter` is a `Nat` threaded through every function that
  calls `fresh_var`.
* `HashMap<Ident, RichTerm>` record maps are association lists; "processing
  order" of a record's fields is the list order (Rust's iteration order is some
  fixed order of the map; all order-sensitive statements are relative to it).
* `Vec` used as a stack (push/pop at the end) is a `List` whose head is the top.
* The term type, the resolver interface, the traversal engine, environments and
  closures live outside `src/`; they are modelled from the spec where noted.
-/

/-- Interned identifier (`Ident(String)` in `identifier.rs`). -/
abbrev Ident := String

/-- Opaque file identifier minted by the resolver (`codespan::FileId`). -/
abbrev FileId := Nat

/-- Opaque position metadata carried by `RichTerm` (`Option<RawSpan>`);
this core preserves it and never inspects it. -/
abbrev Pos := Option Nat

/-- The single error kind of this core; its payload is resolver-defined and
opaque here. -/
abbrev ImportError := String

mutual
/-- Modelled from the spec: the AST node kinds the core inspects (records,
lists, lets, vars, the two import forms, the three single-child wrapper forms)
plus the atomic leaf forms and applications standing for "every other kind". -/
inductive Term where
  | Bool (b : Bool)
  | Num (n : Nat)
  | Str (s : String)
  | Lbl (l : Nat)
  | Sym (s : Nat)
  | Var (id : Ident)
  | Enum (id : Ident)
  | Fun (id : Ident) (t : RichTerm)
  | Let (id : Ident) (bound : RichTerm) (body : RichTerm)
  | App (t1 : RichTerm) (t2 : RichTerm)
  | Record (map : List (Ident × RichTerm))
  | List (ts : List RichTerm)
  | DefaultValue (t : RichTerm)
  | ContractWithDefault (ty : Types) (lbl : Nat) (t : RichTerm)
  | Docstring (s : String) (t : RichTerm)
  | Import (path : String)
  | ResolvedImport (fileId : FileId)

/-- A `Term` together with its source position. -/
inductive RichTerm where
  | mk (term : Term) (pos : Pos)

/-- Modelled from the spec: a type; the only variant this core builds is the
flat type (an opaque type defined by a custom contract term); `Dyn` stands in
for the remaining type constructors. -/
inductive AbsType where
  | Dyn
  | Flat (t : RichTerm)

/-- Wrapper around `AbsType`, as `Types(pub AbsType)` in `types.rs`. -/
inductive Types where
  | mk (ty : AbsType)
end

/-- The underlying `Term` of a `RichTerm`. -/
def RichTerm.term : RichTerm → Term
  | .mk t _ => t

/-- The position of a `RichTerm`. -/
def RichTerm.pos : RichTerm → Pos
  | .mk _ p => p

/-- `Term::into()` for `RichTerm`: wrap a term with no position. -/
def Term.intoRich (t : Term) : RichTerm := .mk t none

/-- Modelled from the spec: extract the underlying runtime-check term (the
"contract") of a type; for a flat type it is the defining custom contract, for
the stand-in `Dyn` an opaque builtin contract term. -/
def Types.contract : Types → RichTerm
  | .mk (.Flat t) => t
  | .mk .Dyn => Term.intoRich (.Var "%builtin_contract_dyn")

/-- `fresh_var`: the synthetic identifier minted at counter value `c`; begins
with the `%` sigil reserved away from user-defined variables. -/
def fresh_var (c : Nat) : Ident := "%" ++ toString c

namespace share_normal_form

/-- `share_normal_form::should_share`: a subterm of a WHNF is wrapped in a
thunk unless it is one of the atomic kinds. -/
def should_share : Term → Bool
  | .Bool _ | .Num _ | .Str _ | .Lbl _ | .Sym _ | .Var _ | .Enum _ | .Fun _ _ => false
  | _ => true

/-- The per-field loop of the `Record` arm of `transform_one`: walk the fields
in processing order, replacing each shareable value by a fresh variable and
pushing the (fresh identifier, original value) pair onto `bindings`; returns
the rewritten field list, the bindings in processing order (first pushed at
the head, as in the Rust `Vec`), and the updated counter. -/
def shareRecordFields : List (Ident × RichTerm) → Nat →
    List (Ident × RichTerm) × List (Ident × RichTerm) × Nat
  | [], c => ([], [], c)
  | (id, t) :: rest, c =>
    if should_share t.term then
      let v := fresh_var c
      let (map1, bs, c1) := shareRecordFields rest (c + 1)
      ((id, Term.intoRich (.Var v)) :: map1, (v, t) :: bs, c1)
    else
      let (map1, bs, c1) := shareRecordFields rest c
      ((id, t) :: map1, bs, c1)

/-- The per-element loop of the `List` arm of `transform_one`, identical to
the record case without the field names. -/
def shareListElems : List RichTerm → Nat →
    List RichTerm × List (Ident × RichTerm) × Nat
  | [], c => ([], [], c)
  | t :: rest, c =>
    if should_share t.term then
      let v := fresh_var c
      let (ts1, bs, c1) := shareListElems rest (c + 1)
      (Term.intoRich (.Var v) :: ts1, (v, t) :: bs, c1)
    else
      let (ts1, bs, c1) := shareListElems rest c
      (t :: ts1, bs, c1)

/-- The `bindings.into_iter().fold(...)` wrapping step: wrap `acc` in one
`Let` per binding, folding left over the bindings vector. -/
def wrapLets (bindings : List (Ident × RichTerm)) (acc : RichTerm) : RichTerm :=
  bindings.foldl (fun acc p => Term.intoRich (.Let p.1 p.2 acc)) acc

/-- `share_normal_form::transform_one`: one step of the share-normal-form
transformation applied to the top node only. -/
def transform_one (rt : RichTerm) (c : Nat) : RichTerm × Nat :=
  match rt with
  | .mk term pos =>
    match term with
    | .Record map =>
      let (map1, bindings, c1) := shareRecordFields map c
      (wrapLets bindings (.mk (.Record map1) pos), c1)
    | .List ts =>
      let (ts1, bindings, c1) := shareListElems ts c
      (wrapLets bindings (.mk (.List ts1) pos), c1)
    | .DefaultValue t =>
      if should_share t.term then
        let v := fresh_var c
        (Term.intoRich (.Let v t (.mk (.DefaultValue (Term.intoRich (.Var v))) pos)), c + 1)
      else
        (.mk (.DefaultValue t) pos, c)
    | .ContractWithDefault ty lbl t =>
      if should_share t.term then
        let v := fresh_var c
        (Term.intoRich
          (.Let v t (.mk (.ContractWithDefault ty lbl (Term.intoRich (.Var v))) pos)), c + 1)
      else
        (.mk (.ContractWithDefault ty lbl t) pos, c)
    | .Docstring s t =>
      if should_share t.term then
        let v := fresh_var c
        (Term.intoRich (.Let v t (.mk (.Docstring s (Term.intoRich (.Var v))) pos)), c + 1)
      else
        (.mk (.Docstring s t) pos, c)
    | t => (.mk t pos, c)

end share_normal_form

/-- Modelled from the spec: the outcome of a resolver `resolve` call — the
file was already cached (no payload) or freshly loaded (carries the parsed,
not-yet-transformed term). -/
inductive ResolvedTerm where
  | FromCache
  | FromFile (t : RichTerm)

/-- Modelled from the spec: the resolver capability, with explicit state `σ`.
`resolve` may mutate the resolver even when it fails, hence the state is
returned on both paths; `insert` stores the transformed term for a file. -/
structure ImportResolverOps (σ : Type) where
  resolve : σ → String → Pos → (Except ImportError (ResolvedTerm × FileId)) × σ
  insert : σ → FileId → RichTerm → σ

namespace import_resolution

/-- `import_resolution::transform_one`: resolve the import if the term is an
unresolved import, or return the term unchanged; a freshly loaded term is
returned as a to-enqueue pair. -/
def transform_one {σ : Type} (R : ImportResolverOps σ) (rt : RichTerm) (s : σ) :
    (Except ImportError (RichTerm × Option (RichTerm × FileId))) × σ :=
  match rt with
  | .mk (.Import path) pos =>
    match R.resolve s path pos with
    | (.error e, s1) => (.error e, s1)
    | (.ok (resTerm, fileId), s1) =>
      let ret : Option (RichTerm × FileId) :=
        match resTerm with
        | .FromCache => none
        | .FromFile t => some (t, fileId)
      (.ok (.mk (.ResolvedImport fileId) pos, ret), s1)
  | .mk t pos => (.ok (.mk t pos, none), s)

end import_resolution

/-- The state passed around during the program transformation (`TransformState`
in the source): the resolver state, the stack of pending imported terms, and —
added to the threaded state in this embedding — the global fresh-variable
counter. -/
structure TransformState (σ : Type) where
  res : σ
  stack : List (RichTerm × FileId)
  ctr : Nat

/-- The combined single-step callback of `transform_pass`: one step of the
share-normal-form transformation, then one step of the resolution of imports;
a freshly resolved file is pushed onto the stack. -/
def transformStep {σ : Type} (R : ImportResolverOps σ) (rt : RichTerm)
    (st : TransformState σ) : (Except ImportError RichTerm) × TransformState σ :=
  let (rt1, c) := share_normal_form.transform_one rt st.ctr
  match import_resolution.transform_one R rt1 st.res with
  | (.error e, s1) => (.error e, ⟨s1, st.stack, c⟩)
  | (.ok (rt2, toQueue), s1) =>
    match toQueue with
    | some (t, fileId) => (.ok rt2, ⟨s1, (t, fileId) :: st.stack, c⟩)
    | none => (.ok rt2, ⟨s1, st.stack, c⟩)

mutual
/-- Modelled from the spec: the external traversal engine (`rt.traverse`),
a generic structural recursion applying the fallible single-step callback `f`
once per node, bottom-up, threading the mutable context and short-circuiting
on the first error (mutations made before the error persist). -/
def traverseRich {St : Type} (f : RichTerm → St → (Except ImportError RichTerm) × St) :
    RichTerm → St → (Except ImportError RichTerm) × St
  | .mk t pos, st =>
    match traverseTerm f t st with
    | (.error e, st1) => (.error e, st1)
    | (.ok t1, st1) => f (.mk t1 pos) st1

/-- Structural part of the traversal engine: rebuild one `Term` with every
child rewritten, left to right. -/
def traverseTerm {St : Type} (f : RichTerm → St → (Except ImportError RichTerm) × St) :
    Term → St → (Except ImportError Term) × St
  | .Bool b, st => (.ok (.Bool b), st)
  | .Num n, st => (.ok (.Num n), st)
  | .Str s, st => (.ok (.Str s), st)
  | .Lbl l, st => (.ok (.Lbl l), st)
  | .Sym s, st => (.ok (.Sym s), st)
  | .Var id, st => (.ok (.Var id), st)
  | .Enum id, st => (.ok (.Enum id), st)
  | .Fun id t, st =>
    match traverseRich f t st with
    | (.error e, st1) => (.error e, st1)
    | (.ok t1, st1) => (.ok (.Fun id t1), st1)
  | .Let id t1 t2, st =>
    match traverseRich f t1 st with
    | (.error e, st1) => (.error e, st1)
    | (.ok u1, st1) =>
      match traverseRich f t2 st1 with
      | (.error e, st2) => (.error e, st2)
      | (.ok u2, st2) => (.ok (.Let id u1 u2), st2)
  | .App t1 t2, st =>
    match traverseRich f t1 st with
    | (.error e, st1) => (.error e, st1)
    | (.ok u1, st1) =>
      match traverseRich f t2 st1 with
      | (.error e, st2) => (.error e, st2)
      | (.ok u2, st2) => (.ok (.App u1 u2), st2)
  | .Record map, st =>
    match traverseFields f map st with
    | (.error e, st1) => (.error e, st1)
    | (.ok map1, st1) => (.ok (.Record map1), st1)
  | .List ts, st =>
    match traverseElems f ts st with
    | (.error e, st1) => (.error e, st1)
    | (.ok ts1, st1) => (.ok (.List ts1), st1)
  | .DefaultValue t, st =>
    match traverseRich f t st with
    | (.error e, st1) => (.error e, st1)
    | (.ok t1, st1) => (.ok (.DefaultValue t1), st1)
  | .ContractWithDefault ty lbl t, st =>
    match traverseRich f t st with
    | (.error e, st1) => (.error e, st1)
    | (.ok t1, st1) => (.ok (.ContractWithDefault ty lbl t1), st1)
  | .Docstring s t, st =>
    match traverseRich f t st with
    | (.error e, st1) => (.error e, st1)
    | (.ok t1, st1) => (.ok (.Docstring s t1), st1)
  | .Import p, st => (.ok (.Import p), st)
  | .ResolvedImport fid, st => (.ok (.ResolvedImport fid), st)

/-- Traversal of a record's field list. -/
def traverseFields {St : Type} (f : RichTerm → St → (Except ImportError RichTerm) × St) :
    List (Ident × RichTerm) → St → (Except ImportError (List (Ident × RichTerm))) × St
  | [], st => (.ok [], st)
  | (id, t) :: rest, st =>
    match traverseRich f t st with
    | (.error e, st1) => (.error e, st1)
    | (.ok t1, st1) =>
      match traverseFields f rest st1 with
      | (.error e, st2) => (.error e, st2)
      | (.ok rest1, st2) => (.ok ((id, t1) :: rest1), st2)

/-- Traversal of a list's elements. -/
def traverseElems {St : Type} (f : RichTerm → St → (Except ImportError RichTerm) × St) :
    List RichTerm → St → (Except ImportError (List RichTerm)) × St
  | [], st => (.ok [], st)
  | t :: rest, st =>
    match traverseRich f t st with
    | (.error e, st1) => (.error e, st1)
    | (.ok t1, st1) =>
      match traverseElems f rest st1 with
      | (.error e, st2) => (.error e, st2)
      | (.ok rest1, st2) => (.ok (t1 :: rest1), st2)
end

/-- `transform_pass`: one full transformation pass over `rt`; imports
encountered for the first time are pushed onto the stack but not processed. -/
def transform_pass {σ : Type} (R : ImportResolverOps σ) (rt : RichTerm)
    (st : TransformState σ) : (Except ImportError RichTerm) × TransformState σ :=
  traverseRich (transformStep R) rt st

/-- The `while let Some((t, file_id)) = stack.pop()` drain loop of `transform`,
with explicit fuel (the Rust loop is unbounded; it terminates only when the
stack empties or a pass fails). Returns `none` when the fuel is exhausted,
otherwise the loop's outcome — `none` for clean exit or the first pass
error — together with the final resolver state and counter. -/
def drainStack {σ : Type} (R : ImportResolverOps σ) :
    Nat → TransformState σ → Option ((Option ImportError) × σ × Nat)
  | 0, _ => none
  | fuel + 1, st =>
    match st.stack with
    | [] => some (none, st.res, st.ctr)
    | (t, fileId) :: rest =>
      match transform_pass R t ⟨st.res, rest, st.ctr⟩ with
      | (.error e, st1) => some (some e, st1.res, st1.ctr)
      | (.ok result, st1) => drainStack R fuel ⟨R.insert st1.res fileId result, st1.stack, st1.ctr⟩

/-- `transform`: apply all program transformations — run one full pass over the
root term, then drain the stack of resolved imports, storing each queued file's
transformed term in the resolver; finally return the root pass's result. The
root pass's result is only inspected after the drain loop, exactly as in the
source. -/
def transform {σ : Type} (R : ImportResolverOps σ) (fuel : Nat) (rt : RichTerm)
    (s : σ) (c : Nat) : Option ((Except ImportError RichTerm) × σ × Nat) :=
  let (result, st1) := transform_pass R rt ⟨s, [], c⟩
  match drainStack R fuel st1 with
  | none => none
  | some (some e, s2, c2) => some (.error e, s2, c2)
  | some (none, s2, c2) => some (result, s2, c2)

/-- Modelled from the spec: the binding-kind tag attached to each environment
entry; this core only ever uses the record kind. -/
inductive IdentKind where
  | Lam
  | Let
  | Record

/-- Modelled from the spec: a closure — a body term paired with the environment
captured at its formation — and the environment shape, a mapping from
identifier to a binding slot holding a closure and a binding-kind tag
(the `Rc<RefCell<_>>` sharing of slots is not observable by this core, which
only inserts fresh bindings and never reads any back). -/
inductive Closure where
  | mk (body : RichTerm) (env : List (Ident × Closure × IdentKind))

/-- An environment: mapping from identifier to (closure slot, binding kind),
insertion modelled as consing (the most recent binding shadows). -/
abbrev Environment := List (Ident × Closure × IdentKind)

/-- The body of a closure. -/
def Closure.body : Closure → RichTerm
  | .mk b _ => b

/-- The environment of a closure. -/
def Closure.env : Closure → Environment
  | .mk _ e => e

/-- The `Closurizable` trait: pack a value together with its environment
`with_env` as a closure in the main environment `env`. The fresh-variable
counter is threaded explicitly. -/
class Closurizable (α : Type) where
  closurize : α → Environment → Environment → Nat → α × Environment × Nat

/-- `Closurizable for RichTerm`: generate a fresh variable, bind it in `env`
to the closure `(t, with_env)` with the record binding kind, and return the
variable as a fresh term. -/
instance : Closurizable RichTerm where
  closurize t env with_env c :=
    let var := fresh_var c
    let cl := Closure.mk t with_env
    (Term.intoRich (.Var var), (var, cl, IdentKind.Record) :: env, c + 1)

/-- `Closurizable for Types`: extract the underlying contract, closurize it,
and wrap it back as a flat type. -/
instance : Closurizable Types where
  closurize ty env with_env c :=
    match Closurizable.closurize ty.contract env with_env c with
    | (v, env1, c1) => (Types.mk (.Flat v), env1, c1)

/-- Statement-side helper: peel the maximal spine of `Let` bindings off the top
of a term, returning the (identifier, bound term) pairs outermost first and the
first non-`Let` core. Used to state in which order `transform_one` nests the
bindings it generates. -/
def peelLets : RichTerm → List (Ident × RichTerm) × RichTerm
  | .mk (.Let id bound body) _ =>
    let (bs, core) := peelLets body
    ((id, bound) :: bs, core)
  | rt => ([], rt)

/-- A concrete resolver over a cache log (list of `insert` calls, most recent
first): path `"cached"` is already cached under file id 7, path `"fresh"`
loads the literal `5` under file id 8, and every other path fails. -/
def demoResolver : ImportResolverOps (List (FileId × RichTerm)) where
  resolve s path _pos :=
    if path = "cached" then (.ok (.FromCache, 7), s)
    else if path = "fresh" then (.ok (.FromFile (Term.intoRich (.Num 5)), 8), s)
    else (.error ("no such path: " ++ path), s)
  insert s fid t := (fid, t) :: s

/-- A concrete resolver exercising the error paths of the driver: path `"a"`
freshly loads a file (id 1) whose content is itself the import of `"c"`,
path `"b"` fails with error `"E1"`, and path `"c"` (or anything else) fails
with error `"E2"`. -/
def cexResolver : ImportResolverOps (List (FileId × RichTerm)) where
  resolve s path _pos :=
    if path = "a" then (.ok (.FromFile (Term.intoRich (.Import "c")), 1), s)
    else if path = "b" then (.error "E1", s)
    else (.error "E2", s)
  insert s fid t := (fid, t) :: s

/-- A root term whose pass over `cexResolver` first discovers the import of
`"a"` (queued) and then fails on the import of `"b"`. -/
def cexRoot : RichTerm :=
  Term.intoRich (.List [Term.intoRich (.Import "a"), Term.intoRich (.Import "b")])

/-- A concrete one-field record content whose single value (an application) is
shareable; used to evaluate the record characterization at a concrete input. -/
def demoFields : List (Ident × RichTerm) :=
  [("a", Term.intoRich (.App (Term.intoRich (.Var "f")) (Term.intoRich (.Num 1))))]

/-- A concrete list content with one atomic (non-shareable) element. -/
def demoElems : List RichTerm := [Term.intoRich (.Str "s")]

/-- Peeling the spine of `Let` bindings off a term built by `wrapLets` yields
the wrapped bindings reversed (the left fold makes the last binding the
outermost `Let`), followed by whatever spine the core itself had. -/
theorem peelLets_wrapLets (bs : List (Ident × RichTerm)) :
    ∀ core : RichTerm,
      peelLets (share_normal_form.wrapLets bs core)
        = (bs.reverse ++ (peelLets core).1, (peelLets core).2) := by
  induction bs with
  | nil => intro core; simp [share_normal_form.wrapLets]
  | cons b bs ih =>
    intro core
    obtain ⟨id, bound⟩ := b
    have hstep : share_normal_form.wrapLets ((id, bound) :: bs) core
        = share_normal_form.wrapLets bs (Term.intoRich (.Let id bound core)) := rfl
    rw [hstep, ih]
    simp [peelLets, Term.intoRich]

/-- Characterization of the per-field loop of the `Record` arm: the counter
advances once per binding, there is one binding per shareable field, each
field is rewritten to a variable bound to its original value when shareable
and kept unchanged otherwise, and every binding pairs a synthetic identifier
with an original shareable field value. -/
theorem shareRecordFields_spec (fields : List (Ident × RichTerm)) :
    ∀ (c : Nat) (map1 bs : List (Ident × RichTerm)) (c1 : Nat),
    share_normal_form.shareRecordFields fields c = (map1, bs, c1) →
    c1 = c + bs.length
    ∧ bs.length = (fields.filter fun p => share_normal_form.should_share p.2.term).length
    ∧ List.Forall₂ (fun orig rew =>
        (share_normal_form.should_share orig.2.term = false → rew = orig)
        ∧ (share_normal_form.should_share orig.2.term = true →
            ∃ v, rew = (orig.1, Term.intoRich (.Var v)) ∧ (v, orig.2) ∈ bs)) fields map1
    ∧ (∀ p ∈ bs, share_normal_form.should_share p.2.term = true
        ∧ (∃ id, (id, p.2) ∈ fields) ∧ ∃ k, p.1 = fresh_var k) := by
  induction fields with
  | nil =>
    intro c map1 bs c1 h
    simp [share_normal_form.shareRecordFields] at h
    obtain ⟨rfl, rfl, rfl⟩ := h
    simp
  | cons p rest ih =>
    obtain ⟨id, t⟩ := p
    intro c map1 bs c1 h
    cases hs : share_normal_form.should_share t.term with
    | true =>
      rcases hrec : share_normal_form.shareRecordFields rest (c + 1) with ⟨map1r, bsr, c1r⟩
      simp [share_normal_form.shareRecordFields, hs, hrec] at h
      obtain ⟨rfl, rfl, rfl⟩ := h
      obtain ⟨ihc, ihlen, ihrel, ihbs⟩ := ih (c + 1) map1r bsr c1r hrec
      refine ⟨by simp [ihc]; omega, by simp [hs, ihlen], ?_, ?_⟩
      · refine List.Forall₂.cons
          ⟨fun hf => by simp [hf] at hs, fun _ => ⟨fresh_var c, rfl, by simp⟩⟩ ?_
        exact ihrel.imp fun a b hab =>
          ⟨hab.1, fun ht => by
            obtain ⟨v, hv, hm⟩ := hab.2 ht
            exact ⟨v, hv, List.mem_cons_of_mem _ hm⟩⟩
      · intro q hq
        rcases List.mem_cons.mp hq with rfl | hq
        · exact ⟨hs, ⟨id, by simp⟩, ⟨c, rfl⟩⟩
        · obtain ⟨h1, ⟨id1, h2⟩, h3⟩ := ihbs q hq
          exact ⟨h1, ⟨id1, List.mem_cons_of_mem _ h2⟩, h3⟩
    | false =>
      rcases hrec : share_normal_form.shareRecordFields rest c with ⟨map1r, bsr, c1r⟩
      simp [share_normal_form.shareRecordFields, hs, hrec] at h
      obtain ⟨rfl, rfl, rfl⟩ := h
      obtain ⟨ihc, ihlen, ihrel, ihbs⟩ := ih c map1r bsr c1r hrec
      refine ⟨ihc, by simp [hs, ihlen], ?_, ?_⟩
      · exact List.Forall₂.cons ⟨fun _ => rfl, fun ht => by simp [ht] at hs⟩ ihrel
      · intro q hq
        obtain ⟨h1, ⟨id1, h2⟩, h3⟩ := ihbs q hq
        exact ⟨h1, ⟨id1, List.mem_cons_of_mem _ h2⟩, h3⟩

/-- Characterization of the per-element loop of the `List` arm, the exact
analogue of the record case. -/
theorem shareListElems_spec (ts : List RichTerm) :
    ∀ (c : Nat) (ts1 : List RichTerm) (bs : List (Ident × RichTerm)) (c1 : Nat),
    share_normal_form.shareListElems ts c = (ts1, bs, c1) →
    c1 = c + bs.length
    ∧ bs.length = (ts.filter fun t => share_normal_form.should_share t.term).length
    ∧ List.Forall₂ (fun orig rew =>
        (share_normal_form.should_share orig.term = false → rew = orig)
        ∧ (share_normal_form.should_share orig.term = true →
            ∃ v, rew = Term.intoRich (.Var v) ∧ (v, orig) ∈ bs)) ts ts1
    ∧ (∀ p ∈ bs, share_normal_form.should_share p.2.term = true
        ∧ p.2 ∈ ts ∧ ∃ k, p.1 = fresh_var k) := by
  induction ts with
  | nil =>
    intro c ts1 bs c1 h
    simp [share_normal_form.shareListElems] at h
    obtain ⟨rfl, rfl, rfl⟩ := h
    simp
  | cons t rest ih =>
    intro c ts1 bs c1 h
    cases hs : share_normal_form.should_share t.term with
    | true =>
      rcases hrec : share_normal_form.shareListElems rest (c + 1) with ⟨ts1r, bsr, c1r⟩
      simp [share_normal_form.shareListElems, hs, hrec] at h
      obtain ⟨rfl, rfl, rfl⟩ := h
      obtain ⟨ihc, ihlen, ihrel, ihbs⟩ := ih (c + 1) ts1r bsr c1r hrec
      refine ⟨by simp [ihc]; omega, by simp [hs, ihlen], ?_, ?_⟩
      · refine List.Forall₂.cons
          ⟨fun hf => by simp [hf] at hs, fun _ => ⟨fresh_var c, rfl, by simp⟩⟩ ?_
        exact ihrel.imp fun a b hab =>
          ⟨hab.1, fun ht => by
            obtain ⟨v, hv, hm⟩ := hab.2 ht
            exact ⟨v, hv, List.mem_cons_of_mem _ hm⟩⟩
      · intro q hq
        rcases List.mem_cons.mp hq with rfl | hq
        · exact ⟨hs, by simp, ⟨c, rfl⟩⟩
        · obtain ⟨h1, h2, h3⟩ := ihbs q hq
          exact ⟨h1, List.mem_cons_of_mem _ h2, h3⟩
    | false =>
      rcases hrec : share_normal_form.shareListElems rest c with ⟨ts1r, bsr, c1r⟩
      simp [share_normal_form.shareListElems, hs, hrec] at h
      obtain ⟨rfl, rfl, rfl⟩ := h
      obtain ⟨ihc, ihlen, ihrel, ihbs⟩ := ih c ts1r bsr c1r hrec
      refine ⟨ihc, by simp [hs, ihlen], ?_, ?_⟩
      · exact List.Forall₂.cons ⟨fun _ => rfl, fun ht => by simp [ht] at hs⟩ ihrel
      · intro q hq
        obtain ⟨h1, h2, h3⟩ := ihbs q hq
        exact ⟨h1, List.mem_cons_of_mem _ h2, h3⟩

/-- When no field value is shareable, the per-field loop of the `Record` arm
is the identity: no bindings, no counter movement. -/
theorem shareRecordFields_no_share (fields : List (Ident × RichTerm)) :
    ∀ c : Nat, (∀ p ∈ fields, share_normal_form.should_share p.2.term = false) →
      share_normal_form.shareRecordFields fields c = (fields, [], c) := by
  induction fields with
  | nil => intro c _; rfl
  | cons p rest ih =>
    intro c hall
    obtain ⟨id, t⟩ := p
    have hs : share_normal_form.should_share t.term = false := hall (id, t) (by simp)
    have hrest := ih c fun q hq => hall q (List.mem_cons_of_mem _ hq)
    simp [share_normal_form.shareRecordFields, hs, hrest]

/-- When no element is shareable, the per-element loop of the `List` arm is
the identity: no bindings, no counter movement. -/
theorem shareListElems_no_share (ts : List RichTerm) :
    ∀ c : Nat, (∀ t ∈ ts, share_normal_form.should_share t.term = false) →
      share_normal_form.shareListElems ts c = (ts, [], c) := by
  induction ts with
  | nil => intro c _; rfl
  | cons t rest ih =>
    intro c hall
    have hs : share_normal_form.should_share t.term = false := hall t (by simp)
    have hrest := ih c fun q hq => hall q (List.mem_cons_of_mem _ hq)
    simp [share_normal_form.shareListElems, hs, hrest]

/-- C1, counterexample: with `cexResolver`, the root pass over `cexRoot`
raises error `"E1"` (after queuing the freshly loaded file of `"a"`), yet
`transform` does not abort there: it drains the queue, the queued pass fails
with the different error `"E2"`, and `transform` returns `"E2"` — so an error
raised by a transformation pass neither aborted the call nor was the error
`transform` returned. -/
theorem transform_root_error_not_aborting_cex :
    (transform_pass cexResolver cexRoot ⟨[], [], 0⟩).1 = .error "E1"
  ∧ transform cexResolver 9 cexRoot [] 0 = some (.error "E2", [], 0)
  ∧ ("E1" : ImportError) ≠ "E2" :=
  ⟨rfl, rfl, by decide⟩

/-- C1, amended: whenever any pass errors, `transform` produces no transformed
term — but the abort is immediate only for queued passes. (1) A root-pass error
is returned after the drain loop completes cleanly; (2) any error surfacing in
the drain loop is returned by `transform` whatever the root pass did; (3)
`transform` returns a transformed term only when the root pass succeeded with
that very term and the drain loop completed without error. -/
theorem transform_error_propagation {σ : Type} (R : ImportResolverOps σ) (fuel : Nat)
    (rt : RichTerm) (s : σ) (c : Nat) :
    (∀ e st1 s2 c2, transform_pass R rt ⟨s, [], c⟩ = (.error e, st1) →
      drainStack R fuel st1 = some (none, s2, c2) →
      transform R fuel rt s c = some (.error e, s2, c2))
  ∧ (∀ r st1 e s2 c2, transform_pass R rt ⟨s, [], c⟩ = (r, st1) →
      drainStack R fuel st1 = some (some e, s2, c2) →
      transform R fuel rt s c = some (.error e, s2, c2))
  ∧ (∀ t s2 c2, transform R fuel rt s c = some (.ok t, s2, c2) →
      (transform_pass R rt ⟨s, [], c⟩).1 = .ok t
      ∧ drainStack R fuel (transform_pass R rt ⟨s, [], c⟩).2 = some (none, s2, c2)) := by
  refine ⟨?_, ?_, ?_⟩
  · intro e st1 s2 c2 hp hd
    simp [transform, hp, hd]
  · intro r st1 e s2 c2 hp hd
    simp [transform, hp, hd]
  · intro t s2 c2 h
    rcases hp : transform_pass R rt ⟨s, [], c⟩ with ⟨r, st1⟩
    simp only [transform, hp] at h
    rcases hd : drainStack R fuel st1 with _ | ⟨oe, s3, c3⟩
    · rw [hd] at h
      simp at h
    · rw [hd] at h
      cases oe with
      | none =>
        simp at h
        obtain ⟨h1, h2, h3⟩ := h
        subst h2
        subst h3
        exact ⟨h1, rfl⟩
      | some e =>
        simp at h

/-- Witness for the amended C1 theorem: the root pass over the lone import of
`"b"` fails with `"E1"`, the stack is empty, and `transform` returns `"E1"`. -/
theorem transform_error_propagation_witness :
    transform cexResolver 3 (Term.intoRich (.Import "b")) [] 0 = some (.error "E1", [], 0) :=
  (transform_error_propagation cexResolver 3 (Term.intoRich (.Import "b")) [] 0).1
    "E1" ⟨[], [], 0⟩ [] 0 rfl rfl

/-- C2: behaviour of the drain loop — an empty stack terminates the loop
cleanly; popping a `(term, file id)` pair whose pass succeeds continues on the
pass's (possibly grown) stack with the transformed result stored in the
resolver under that file id; popping a pair whose pass fails terminates the
loop at once with that error. -/
theorem drain_loop_behavior {σ : Type} (R : ImportResolverOps σ) (fuel : Nat)
    (t : RichTerm) (fileId : FileId) (rest : List (RichTerm × FileId)) (s : σ) (c : Nat) :
    (drainStack R (fuel + 1) ⟨s, [], c⟩ = some (none, s, c))
  ∧ (∀ result st1, transform_pass R t ⟨s, rest, c⟩ = (.ok result, st1) →
      drainStack R (fuel + 1) ⟨s, (t, fileId) :: rest, c⟩
        = drainStack R fuel ⟨R.insert st1.res fileId result, st1.stack, st1.ctr⟩)
  ∧ (∀ e st1, transform_pass R t ⟨s, rest, c⟩ = (.error e, st1) →
      drainStack R (fuel + 1) ⟨s, (t, fileId) :: rest, c⟩ = some (some e, st1.res, st1.ctr)) := by
  refine ⟨rfl, ?_, ?_⟩
  · intro result st1 h
    simp [drainStack, h]
  · intro e st1 h
    simp [drainStack, h]

/-- Witness for C2's drain-loop theorem: one queued atomic term is popped, its
pass succeeds, its transformed result is inserted under its file id, and the
then-empty stack terminates the loop. -/
theorem drain_loop_behavior_witness :
    drainStack demoResolver 2 ⟨[], [(Term.intoRich (.Num 1), 5)], 0⟩
      = drainStack demoResolver 1 ⟨[(5, Term.intoRich (.Num 1))], [], 0⟩
  ∧ drainStack demoResolver 1 ⟨[], [], 0⟩ = some (none, [], 0) :=
  ⟨(drain_loop_behavior demoResolver 1 (Term.intoRich (.Num 1)) 5 [] [] 0).2.1
      (Term.intoRich (.Num 1)) ⟨[], [], 0⟩ rfl,
   (drain_loop_behavior demoResolver 0 (Term.intoRich (.Num 1)) 5 [] [] 0).1⟩

/-- C3: when the resolver succeeds on the path of an unresolved node of kind
`Import`, the rewriter replaces the node by `ResolvedImport(file_id)` at the
same position regardless of the cache outcome, and returns a to-enqueue pair
exactly when the resolution freshly loaded a file (`FromFile`), never on a
cache hit (`FromCache`). -/
theorem import_transform_one_resolved {σ : Type} (R : ImportResolverOps σ)
    (s s1 : σ) (path : String) (pos : Pos) (resTerm : ResolvedTerm) (fid : FileId)
    (h : R.resolve s path pos = (.ok (resTerm, fid), s1)) :
    (resTerm = .FromCache →
      import_resolution.transform_one R (.mk (.Import path) pos) s
        = (.ok (.mk (.ResolvedImport fid) pos, none), s1))
  ∧ (∀ t, resTerm = .FromFile t →
      import_resolution.transform_one R (.mk (.Import path) pos) s
        = (.ok (.mk (.ResolvedImport fid) pos, some (t, fid)), s1)) := by
  constructor
  · rintro rfl
    simp [import_resolution.transform_one, h]
  · rintro t rfl
    simp [import_resolution.transform_one, h]

/-- Witness for C3: resolving `"fresh"` with `demoResolver` loads the literal
`5` under file id 8, so the node is rewritten to `ResolvedImport 8` and the
loaded term is returned for queuing. -/
theorem import_transform_one_resolved_witness :
    import_resolution.transform_one demoResolver (.mk (.Import "fresh") none) []
      = (.ok (.mk (.ResolvedImport 8) none, some (Term.intoRich (.Num 5), 8)), []) :=
  (import_transform_one_resolved demoResolver [] [] "fresh" none
      (.FromFile (Term.intoRich (.Num 5))) 8 rfl).2 _ rfl

/-- C4: on a record, `transform_one` rewrites exactly the shareable field
values to variable references bound by one wrapping `Let` each, whose bound
term is the original value unchanged; every non-shareable value stays as it
was; the counter advances once per binding and each binding's identifier is a
synthetic `fresh_var`. Likewise for a list. -/
theorem share_record_list_characterization (fields : List (Ident × RichTerm))
    (ts : List RichTerm) (pos : Pos) (c : Nat) :
    (∃ bs map1,
      share_normal_form.transform_one (.mk (.Record fields) pos) c
        = (share_normal_form.wrapLets bs (.mk (.Record map1) pos), c + bs.length)
      ∧ peelLets (share_normal_form.transform_one (.mk (.Record fields) pos) c).1
          = (bs.reverse, .mk (.Record map1) pos)
      ∧ bs.length = (fields.filter fun p => share_normal_form.should_share p.2.term).length
      ∧ List.Forall₂ (fun orig rew =>
          (share_normal_form.should_share orig.2.term = false → rew = orig)
          ∧ (share_normal_form.should_share orig.2.term = true →
              ∃ v, rew = (orig.1, Term.intoRich (.Var v)) ∧ (v, orig.2) ∈ bs)) fields map1
      ∧ (∀ p ∈ bs, share_normal_form.should_share p.2.term = true
          ∧ (∃ id, (id, p.2) ∈ fields) ∧ ∃ k, p.1 = fresh_var k))
  ∧ (∃ bs ts1,
      share_normal_form.transform_one (.mk (.List ts) pos) c
        = (share_normal_form.wrapLets bs (.mk (.List ts1) pos), c + bs.length)
      ∧ peelLets (share_normal_form.transform_one (.mk (.List ts) pos) c).1
          = (bs.reverse, .mk (.List ts1) pos)
      ∧ bs.length = (ts.filter fun t => share_normal_form.should_share t.term).length
      ∧ List.Forall₂ (fun orig rew =>
          (share_normal_form.should_share orig.term = false → rew = orig)
          ∧ (share_normal_form.should_share orig.term = true →
              ∃ v, rew = Term.intoRich (.Var v) ∧ (v, orig) ∈ bs)) ts ts1
      ∧ (∀ p ∈ bs, share_normal_form.should_share p.2.term = true
          ∧ p.2 ∈ ts ∧ ∃ k, p.1 = fresh_var k)) := by
  constructor
  · rcases hrec : share_normal_form.shareRecordFields fields c with ⟨map1, bs, c1⟩
    obtain ⟨hc, hlen, hrel, hbs⟩ := shareRecordFields_spec fields c map1 bs c1 hrec
    have heq : share_normal_form.transform_one (.mk (.Record fields) pos) c
        = (share_normal_form.wrapLets bs (.mk (.Record map1) pos), c1) := by
      simp [share_normal_form.transform_one, hrec]
    refine ⟨bs, map1, by rw [heq, hc], ?_, hlen, hrel, hbs⟩
    rw [heq]
    simpa [peelLets] using peelLets_wrapLets bs (.mk (.Record map1) pos)
  · rcases hrec : share_normal_form.shareListElems ts c with ⟨ts1, bs, c1⟩
    obtain ⟨hc, hlen, hrel, hbs⟩ := shareListElems_spec ts c ts1 bs c1 hrec
    have heq : share_normal_form.transform_one (.mk (.List ts) pos) c
        = (share_normal_form.wrapLets bs (.mk (.List ts1) pos), c1) := by
      simp [share_normal_form.transform_one, hrec]
    refine ⟨bs, ts1, by rw [heq, hc], ?_, hlen, hrel, hbs⟩
    rw [heq]
    simpa [peelLets] using peelLets_wrapLets bs (.mk (.List ts1) pos)

/-- Witness for C4 at a concrete record (one shareable application field) and
a concrete list (one atomic element). -/
theorem share_record_list_characterization_witness :
    (∃ bs map1,
      share_normal_form.transform_one (.mk (.Record demoFields) none) 0
        = (share_normal_form.wrapLets bs (.mk (.Record map1) none), 0 + bs.length)
      ∧ peelLets (share_normal_form.transform_one (.mk (.Record demoFields) none) 0).1
          = (bs.reverse, .mk (.Record map1) none)
      ∧ bs.length = (demoFields.filter fun p => share_normal_form.should_share p.2.term).length
      ∧ List.Forall₂ (fun orig rew =>
          (share_normal_form.should_share orig.2.term = false → rew = orig)
          ∧ (share_normal_form.should_share orig.2.term = true →
              ∃ v, rew = (orig.1, Term.intoRich (.Var v)) ∧ (v, orig.2) ∈ bs)) demoFields map1
      ∧ (∀ p ∈ bs, share_normal_form.should_share p.2.term = true
          ∧ (∃ id, (id, p.2) ∈ demoFields) ∧ ∃ k, p.1 = fresh_var k))
  ∧ (∃ bs ts1,
      share_normal_form.transform_one (.mk (.List demoElems) none) 0
        = (share_normal_form.wrapLets bs (.mk (.List ts1) none), 0 + bs.length)
      ∧ peelLets (share_normal_form.transform_one (.mk (.List demoElems) none) 0).1
          = (bs.reverse, .mk (.List ts1) none)
      ∧ bs.length = (demoElems.filter fun t => share_normal_form.should_share t.term).length
      ∧ List.Forall₂ (fun orig rew =>
          (share_normal_form.should_share orig.term = false → rew = orig)
          ∧ (share_normal_form.should_share orig.term = true →
              ∃ v, rew = Term.intoRich (.Var v) ∧ (v, orig) ∈ bs)) demoElems ts1
      ∧ (∀ p ∈ bs, share_normal_form.should_share p.2.term = true
          ∧ p.2 ∈ demoElems ∧ ∃ k, p.1 = fresh_var k)) :=
  share_record_list_characterization demoFields demoElems none 0

/-- C5: `should_share` returns `false` exactly on the atomic kinds — boolean,
number, string, label, symbol, variable reference, enum tag, function
literal — and `true` on every other kind of node. -/
theorem should_share_classification :
    (∀ b, share_normal_form.should_share (.Bool b) = false)
  ∧ (∀ n, share_normal_form.should_share (.Num n) = false)
  ∧ (∀ s, share_normal_form.should_share (.Str s) = false)
  ∧ (∀ l, share_normal_form.should_share (.Lbl l) = false)
  ∧ (∀ s, share_normal_form.should_share (.Sym s) = false)
  ∧ (∀ id, share_normal_form.should_share (.Var id) = false)
  ∧ (∀ id, share_normal_form.should_share (.Enum id) = false)
  ∧ (∀ id t, share_normal_form.should_share (.Fun id t) = false)
  ∧ (∀ id t1 t2, share_normal_form.should_share (.Let id t1 t2) = true)
  ∧ (∀ t1 t2, share_normal_form.should_share (.App t1 t2) = true)
  ∧ (∀ map, share_normal_form.should_share (.Record map) = true)
  ∧ (∀ ts, share_normal_form.should_share (.List ts) = true)
  ∧ (∀ t, share_normal_form.should_share (.DefaultValue t) = true)
  ∧ (∀ ty lbl t, share_normal_form.should_share (.ContractWithDefault ty lbl t) = true)
  ∧ (∀ s t, share_normal_form.should_share (.Docstring s t) = true)
  ∧ (∀ p, share_normal_form.should_share (.Import p) = true)
  ∧ (∀ fid, share_normal_form.should_share (.ResolvedImport fid) = true) :=
  ⟨fun _ => rfl, fun _ => rfl, fun _ => rfl, fun _ => rfl, fun _ => rfl, fun _ => rfl,
   fun _ => rfl, fun _ _ => rfl, fun _ _ _ => rfl, fun _ _ => rfl, fun _ => rfl, fun _ => rfl,
   fun _ => rfl, fun _ _ _ => rfl, fun _ _ => rfl, fun _ => rfl, fun _ => rfl⟩

/-- C6, counterexample: sharing the two fields of the concrete record
`{a = {}, b = []}` nests the `Let` bindings with the LAST remembered pair
(`fresh_var 1`, bound to field `b`'s value) outermost and the FIRST remembered
pair (`fresh_var 0`, bound to field `a`'s value) innermost — the reverse of
the claimed outermost-to-innermost processing order. -/
theorem share_nesting_first_pair_innermost_cex :
    share_normal_form.transform_one
        (.mk (.Record [("a", Term.intoRich (.Record [])), ("b", Term.intoRich (.List []))]) none) 0
      = (Term.intoRich (.Let (fresh_var 1) (Term.intoRich (.List []))
           (Term.intoRich (.Let (fresh_var 0) (Term.intoRich (.Record []))
             (.mk (.Record [("a", Term.intoRich (.Var (fresh_var 0))),
                            ("b", Term.intoRich (.Var (fresh_var 1)))]) none)))), 2)
    ∧ fresh_var 0 ≠ fresh_var 1 :=
  ⟨rfl, by decide⟩

/-- C6, amended: the generated `Let` bindings nest in the REVERSE of the
processing order — peeling the result's `Let` spine outermost-first yields the
remembered (identifier, value) pairs reversed, so the first remembered pair is
the innermost binding and the last the outermost, around the rewritten record
(list). -/
theorem share_nesting_order (fields : List (Ident × RichTerm))
    (ts : List RichTerm) (pos : Pos) (c : Nat) :
    peelLets (share_normal_form.transform_one (.mk (.Record fields) pos) c).1
      = ((share_normal_form.shareRecordFields fields c).2.1.reverse,
         .mk (.Record (share_normal_form.shareRecordFields fields c).1) pos)
  ∧ peelLets (share_normal_form.transform_one (.mk (.List ts) pos) c).1
      = ((share_normal_form.shareListElems ts c).2.1.reverse,
         .mk (.List (share_normal_form.shareListElems ts c).1) pos) := by
  constructor
  · rcases hrec : share_normal_form.shareRecordFields fields c with ⟨map1, bs, c1⟩
    have heq : share_normal_form.transform_one (.mk (.Record fields) pos) c
        = (share_normal_form.wrapLets bs (.mk (.Record map1) pos), c1) := by
      simp [share_normal_form.transform_one, hrec]
    rw [heq]
    simpa [peelLets] using peelLets_wrapLets bs (.mk (.Record map1) pos)
  · rcases hrec : share_normal_form.shareListElems ts c with ⟨ts1, bs, c1⟩
    have heq : share_normal_form.transform_one (.mk (.List ts) pos) c
        = (share_normal_form.wrapLets bs (.mk (.List ts1) pos), c1) := by
      simp [share_normal_form.transform_one, hrec]
    rw [heq]
    simpa [peelLets] using peelLets_wrapLets bs (.mk (.List ts1) pos)

/-- C7: the sharing rewriter is the identity (term and counter) on a record
all of whose field values are non-shareable — variable references or atomics —
and likewise on such a list. -/
theorem share_idempotent_on_shared (fields : List (Ident × RichTerm))
    (ts : List RichTerm) (pos : Pos) (c : Nat) :
    ((∀ p ∈ fields, share_normal_form.should_share p.2.term = false) →
      share_normal_form.transform_one (.mk (.Record fields) pos) c
        = (.mk (.Record fields) pos, c))
  ∧ ((∀ t ∈ ts, share_normal_form.should_share t.term = false) →
      share_normal_form.transform_one (.mk (.List ts) pos) c
        = (.mk (.List ts) pos, c)) := by
  constructor
  · intro hall
    simp [share_normal_form.transform_one, shareRecordFields_no_share fields c hall,
      share_normal_form.wrapLets]
  · intro hall
    simp [share_normal_form.transform_one, shareListElems_no_share ts c hall,
      share_normal_form.wrapLets]

/-- Witness for C7: the already-shared record `{a = x, b = 1}` is returned
structurally identical, with the counter untouched. -/
theorem share_idempotent_on_shared_witness :
    share_normal_form.transform_one
        (.mk (.Record [("a", Term.intoRich (.Var "x")), ("b", Term.intoRich (.Num 1))]) none) 0
      = (.mk (.Record [("a", Term.intoRich (.Var "x")), ("b", Term.intoRich (.Num 1))]) none, 0) :=
  (share_idempotent_on_shared
      [("a", Term.intoRich (.Var "x")), ("b", Term.intoRich (.Num 1))] [] none 0).1
    (by decide)

/-- C8: the resolution rewriter fails exactly on an `Import` node whose path
the resolver fails to resolve, and in that case it propagates the resolver's
error and post-resolve state; an `Import` whose resolution succeeds never
errors; every non-`Import` node — in particular a `ResolvedImport` marker — is
passed through unchanged with no to-enqueue pair and with the state unchanged,
for every resolver (the resolver is not consulted). -/
theorem import_transform_one_error_iff {σ : Type} (R : ImportResolverOps σ) :
    (∀ path pos s e s1, R.resolve s path pos = (.error e, s1) →
      import_resolution.transform_one R (.mk (.Import path) pos) s = (.error e, s1))
  ∧ (∀ path pos s res s1, R.resolve s path pos = (.ok res, s1) →
      ∃ out, import_resolution.transform_one R (.mk (.Import path) pos) s = (.ok out, s1))
  ∧ (∀ rt s, (∀ path, rt.term ≠ .Import path) →
      import_resolution.transform_one R rt s = (.ok (rt, none), s)) := by
  refine ⟨?_, ?_, ?_⟩
  · intro path pos s e s1 h
    simp [import_resolution.transform_one, h]
  · intro path pos s res s1 h
    obtain ⟨resTerm, fid⟩ := res
    cases resTerm with
    | FromCache =>
      exact ⟨(.mk (.ResolvedImport fid) pos, none),
        by simp [import_resolution.transform_one, h]⟩
    | FromFile t =>
      exact ⟨(.mk (.ResolvedImport fid) pos, some (t, fid)),
        by simp [import_resolution.transform_one, h]⟩
  · intro rt s hni
    obtain ⟨t, pos⟩ := rt
    cases t <;> first
      | rfl
      | exact absurd rfl (hni _)

/-- Witness for C8: a `ResolvedImport` marker is never re-resolved — it passes
through unchanged with no side effect. -/
theorem import_transform_one_error_iff_witness :
    import_resolution.transform_one demoResolver (.mk (.ResolvedImport 3) none) []
      = (.ok (.mk (.ResolvedImport 3) none, none), []) :=
  (import_transform_one_error_iff demoResolver).2.2 (.mk (.ResolvedImport 3) none) []
    (fun _path h => Term.noConfusion h)

/-- C9: `closurize` on a term mints the fresh variable of the current counter,
prepends to `env` exactly one binding of that variable to the closure whose
body is the term and whose captured environment is `with_env` (not `env`),
tagged with the record binding kind, and returns a bare variable reference;
on a type it does the same to the type's underlying contract term and wraps
the resulting variable back as a flat type. -/
theorem closurize_spec (t : RichTerm) (ty : Types) (env with_env : Environment) (c : Nat) :
    Closurizable.closurize t env with_env c
      = (Term.intoRich (.Var (fresh_var c)),
         (fresh_var c, Closure.mk t with_env, IdentKind.Record) :: env, c + 1)
  ∧ Closurizable.closurize ty env with_env c
      = (Types.mk (.Flat (Term.intoRich (.Var (fresh_var c)))),
         (fresh_var c, Closure.mk ty.contract with_env, IdentKind.Record) :: env, c + 1) :=
  ⟨rfl, rfl⟩

/-- C10: if the pass over a popped `(term, file id)` pair fails, the drain
loop stops at once with that error and the resolver state is exactly the
erroring pass's post-state — no `insert` for that file id, no further stack
entries processed, all earlier inserts retained — and any error surfacing in
the drain loop is the error `transform` returns. -/
theorem queued_pass_error_aborts {σ : Type} (R : ImportResolverOps σ) (fuel : Nat)
    (t : RichTerm) (fileId : FileId) (rest : List (RichTerm × FileId)) (s : σ) (c : Nat) :
    (∀ e st1, transform_pass R t ⟨s, rest, c⟩ = (.error e, st1) →
      drainStack R (fuel + 1) ⟨s, (t, fileId) :: rest, c⟩ = some (some e, st1.res, st1.ctr))
  ∧ (∀ (rt0 : RichTerm) (s0 : σ) (c0 : Nat) (e : ImportError) (s2 : σ) (c2 : Nat),
      drainStack R fuel (transform_pass R rt0 ⟨s0, [], c0⟩).2 = some (some e, s2, c2) →
      transform R fuel rt0 s0 c0 = some (.error e, s2, c2)) := by
  constructor
  · intro e st1 h
    simp [drainStack, h]
  · intro rt0 s0 c0 e s2 c2 h
    rcases hp : transform_pass R rt0 ⟨s0, [], c0⟩ with ⟨r, st1⟩
    rw [hp] at h
    simp [transform, hp, h]

/-- Witness for C10: the queued pass over the import of `"c"` fails with
`"E2"`, so the drain loop stops with `"E2"` and no insert, and a `transform`
whose queued pass fails returns that error. -/
theorem queued_pass_error_aborts_witness :
    drainStack cexResolver 4 ⟨[], [(Term.intoRich (.Import "c"), 1)], 0⟩
      = some (some "E2", [], 0)
  ∧ transform cexResolver 2 (Term.intoRich (.Import "a")) [] 0 = some (.error "E2", [], 0) :=
  ⟨(queued_pass_error_aborts cexResolver 3 (Term.intoRich (.Import "c")) 1 [] [] 0).1
      "E2" ⟨[], [], 0⟩ rfl,
   (queued_pass_error_aborts cexResolver 2 (Term.intoRich (.Import "c")) 1 [] [] 0).2
      (Term.intoRich (.Import "a")) [] 0 "E2" [] 0 rfl⟩
